import Mathlib

/-!
Verification of the ExcelDataTransformer core: marker based table splitting,
column selection and predicate filtering, format detection, and the
read-merge-write update of the structured output document.  All definitions
are shallow embeddings of src/ExcelDataTransformer.py; external pandas
behavior that the source delegates to is modelled where noted.
-/

/-- Cell values appearing in the spreadsheet and in stored documents.
The nan value models the pandas missing value that the broadcast tagging
step produces. -/
inductive Value where
  | intV (n : Int)
  | strV (s : List Char)
  | nan
deriving DecidableEq

/-- A tabular value: ordered column names plus rows aligned positionally with
the columns.  Mirrors the pandas DataFrame produced by filter_data as an
ordered table of cells. -/
structure Table where
  cols : List (List Char)
  rows : List (List Value)
deriving DecidableEq

/-- Characters removed by the Python str.strip default whitespace set. -/
def isPySpace (c : Char) : Bool :=
  c == ' ' || c == '\t' || c == '\n' || c == '\r' || c == '\x0b' || c == '\x0c'

/-- Python str.strip: remove leading and trailing whitespace. -/
def pyStrip (s : List Char) : List Char :=
  ((s.dropWhile isPySpace).reverse.dropWhile isPySpace).reverse

/-- Python str.startswith on character lists. -/
def pyStartsWith : List Char → List Char → Bool
  | [], _ => true
  | _ :: _, [] => false
  | p :: ps, c :: cs => p == c && pyStartsWith ps cs

/-- ASCII lowering of one character, modelling Python str.lower on the
inputs relevant here. -/
def pyLowerChar (c : Char) : Char :=
  if 'A' ≤ c && c ≤ 'Z' then Char.ofNat (c.toNat + 32) else c

/-- Python str.lower applied characterwise. -/
def pyLower (s : List Char) : List Char := s.map pyLowerChar

/-- Python membership test of a character in a string. -/
def pyContains (ch : Char) (s : List Char) : Bool := s.any (fun a => a == ch)

/-- Python str.split on a single separator character; the empty string
yields one empty field and separators at the ends yield empty fields. -/
def pySplit (sep : Char) : List Char → List (List Char)
  | [] => [[]]
  | c :: rest =>
    if c == sep then [] :: pySplit sep rest
    else
      match pySplit sep rest with
      | [] => [[c]]
      | h :: t => (c :: h) :: t

/-- Normalize one Python slice bound against a length: a negative bound
counts from the end and both directions clip into the valid range. -/
def pyClip (i : Int) (len : Nat) : Nat :=
  if i < 0 then ((len : Int) + i).toNat else min i.toNat len

/-- Python sequence slicing with step one, as performed by
DataFrame.iloc[start:stop] on rows in _load_excel. -/
def pySlice {α : Type} (l : List α) (start : Int) (stop : Option Int) : List α :=
  let b := match stop with
    | none => l.length
    | some e => pyClip e l.length
  (l.take b).drop (pyClip start l.length)

/-- The row slice df.iloc[a : b] for nonnegative in-range bounds, as used by
the table splitter. -/
def sliceN {α : Type} (l : List α) (a b : Nat) : List α := (l.take b).drop a

/-- Column-0 value of a row; a row with no cells reads as missing. -/
def col0 (r : List Value) : Value := r.headD Value.nan

/-- Indices of the marker rows: rows whose column-0 cell equals the
configured keyword, in ascending order.  Mirrors
df[df.iloc[:, 0] == header_keyword].index.tolist() in _load_excel. -/
def processRows (sheet : List (List Value)) (kw : List Char) : List Nat :=
  (List.range sheet.length).filter (fun i => decide (col0 (sheet.getD i []) = Value.strV kw))

/-- Segment slices of _load_excel: for marker number i, the rows strictly
after its marker row up to but excluding the next marker row, or to the end
of the sheet for the last marker. -/
def segsFrom (sheet : List (List Value)) : List Nat → List (List (List Value))
  | [] => []
  | [m] => [sliceN sheet (m + 1) sheet.length]
  | m :: m2 :: rest => sliceN sheet (m + 1) m2 :: segsFrom sheet (m2 :: rest)

/-- Total number of rows across a list of segments. -/
def sumLens {α : Type} (ls : List (List α)) : Nat := (ls.map List.length).sum

/-- Overwrite the column-0 cell of a row. -/
def setCol0 (v : Value) : List Value → List Value
  | [] => []
  | _ :: rest => v :: rest

/-- The assign step of _load_excel: assigning the marker row Series to
column 0 aligns its string labels against the integer row index, so by
pandas alignment every cell of column 0 becomes missing.  Spec section 9
records this broadcast as an open question; row counts are unaffected. -/
def tagSeg (seg : List (List Value)) : List (List Value) := seg.map (setCol0 Value.nan)

/-- Concatenation of all tagged segments, mirroring
pd.concat(tables, ignore_index=True) in _load_excel. -/
def extractConcat (sheet : List (List Value)) (kw : List Char) : List (List Value) :=
  ((segsFrom sheet (processRows sheet kw)).map tagSeg).flatten

/-- Failure mode of _load_excel when no marker row exists. -/
inductive LoadErr where
  | noMarkersFound
deriving DecidableEq

/-- _load_excel: find marker rows, fail when none exist, split into
segments, tag, concatenate, and apply the configured row slice. -/
def load_excel (sheet : List (List Value)) (kw : List Char) (start : Int)
    (stop : Option Int) : Except LoadErr (List (List Value)) :=
  if processRows sheet kw = [] then .error .noMarkersFound
  else .ok (pySlice (extractConcat sheet kw) start stop)

/-- Comparison operators of the where-clause grammar. -/
inductive CmpOp where
  | ceq | cne | clt | cle | cgt | cge
deriving DecidableEq

/-- Literals of the where-clause grammar. -/
inductive Lit where
  | lnum (n : Int)
  | lstr (s : List Char)
deriving DecidableEq

/-- Modelled from the spec: the where-clause grammar of spec section 4.2.
The evaluator the source delegates to is pandas.DataFrame.query, outside
this repository.  Comparisons relate a named column to a literal; boolean
connectives combine them; parenthesization is implicit in the tree. -/
inductive PExpr where
  | cmp (col : List Char) (op : CmpOp) (lit : Lit)
  | pand (a b : PExpr)
  | por (a b : PExpr)
  | pnot (a : PExpr)
deriving DecidableEq

/-- Column names referenced by a predicate expression. -/
def predCols : PExpr → List (List Char)
  | .cmp c _ _ => [c]
  | .pand a b => predCols a ++ predCols b
  | .por a b => predCols a ++ predCols b
  | .pnot a => predCols a

/-- Lexicographic ordering on strings by character code. -/
def strLt : List Char → List Char → Bool
  | [], [] => false
  | [], _ :: _ => true
  | _ :: _, [] => false
  | a :: as, b :: bs =>
    if a.toNat < b.toNat then true
    else if b.toNat < a.toNat then false
    else strLt as bs

/-- Integer comparison under one operator. -/
def cmpInt (a : Int) (op : CmpOp) (b : Int) : Bool :=
  match op with
  | .ceq => a == b
  | .cne => a != b
  | .clt => decide (a < b)
  | .cle => decide (a ≤ b)
  | .cgt => decide (b < a)
  | .cge => decide (b ≤ a)

/-- String comparison under one operator. -/
def cmpStr (a : List Char) (op : CmpOp) (b : List Char) : Bool :=
  match op with
  | .ceq => a == b
  | .cne => !(a == b)
  | .clt => strLt a b
  | .cle => strLt a b || a == b
  | .cgt => strLt b a
  | .cge => strLt b a || a == b

/-- Modelled from the spec: comparison of one cell against a literal.  A
missing or type mismatched cell compares unequal, matching the pandas
convention that NaN comparisons are false and inequality is true. -/
def evalCmp (v : Value) (op : CmpOp) (l : Lit) : Bool :=
  match v, l with
  | .intV n, .lnum m => cmpInt n op m
  | .strV s, .lstr t => cmpStr s op t
  | _, _ =>
    match op with
    | .cne => true
    | _ => false

/-- Value of the named column in a row, positionally aligned with the
column name list. -/
def colVal : List (List Char) → List Value → List Char → Value
  | [], _, _ => Value.nan
  | c :: cs, vs, key => if c = key then vs.headD Value.nan else colVal cs vs.tail key

/-- Row level evaluation of a predicate expression. -/
def evalRow (cols : List (List Char)) (r : List Value) : PExpr → Bool
  | .cmp c op l => evalCmp (colVal cols r c) op l
  | .pand a b => evalRow cols r a && evalRow cols r b
  | .por a b => evalRow cols r a || evalRow cols r b
  | .pnot a => !(evalRow cols r a)

/-- Boolean membership of a column name in a list of column names. -/
def memB (c : List Char) : List (List Char) → Bool
  | [] => false
  | k :: ks => if k = c then true else memB c ks

/-- Boolean inclusion of one column name list in another. -/
def subListB (xs ys : List (List Char)) : Bool := xs.all (fun c => memB c ys)

/-- Failure modes of the filtering step. -/
inductive FErr where
  | expressionError
  | columnNotFound
deriving DecidableEq

/-- Modelled from the spec: df.query(where_clause) as pandas performs it,
per spec section 4.2.  A reference to a column the table does not have
fails before any row is produced; otherwise rows failing the predicate are
dropped with order preserved and columns untouched. -/
def queryTable (t : Table) (p : PExpr) : Except FErr Table :=
  if subListB (predCols p) t.cols then
    .ok ⟨t.cols, t.rows.filter (fun r => evalRow t.cols r p)⟩
  else .error .expressionError

/-- Modelled from the spec: column selection df[list-of-columns] as pandas
performs it, per spec section 4.2: restrict and reorder to exactly the
requested columns, in the order given; an absent column fails. -/
def selectTable (t : Table) (sel : List (List Char)) : Except FErr Table :=
  if subListB sel t.cols then
    .ok ⟨sel, t.rows.map (fun r => sel.map (fun c => colVal t.cols r c))⟩
  else .error .columnNotFound

/-- filter_data: apply the where clause to the full width table first, then
restrict to the selected columns.  A missing or empty select string means
no column restriction; a missing where clause means no row restriction. -/
def filter_data (t : Table) (selStr : Option (List Char)) (wc : Option PExpr) :
    Except FErr Table :=
  match (match wc with
         | none => Except.ok t
         | some p => queryTable t p) with
  | .error e => .error e
  | .ok t1 =>
    match selStr with
    | none => .ok t1
    | some s => if s = [] then .ok t1 else selectTable t1 (pySplit ',' s)

/-- Failure modes of format detection. -/
inductive DetectErr where
  | emptyOrCorrupt
  | unknownFormat
deriving DecidableEq

/-- The three external encodings. -/
inductive Fmt where
  | fjson | fyaml | fcsv
deriving DecidableEq

/-- detect_file_format: inspect only the stripped first line of the
candidate file. -/
def detect_file_format (firstLine : List Char) : Except DetectErr Fmt :=
  let s := pyStrip firstLine
  if s = [] then .error .emptyOrCorrupt
  else if pyStartsWith ['{'] s then .ok .fjson
  else if pyStartsWith ['-', '-', '-'] s then .ok .fyaml
  else if pyContains ',' s || pyStartsWith ['s', 'e', 'p', '='] (pyLower s) then .ok .fcsv
  else .error .unknownFormat

/-- Innermost level of the structured document: category name to table. -/
abbrev GroupMap := List ((List Char) × Table)

/-- Middle level of the structured document: data group name to categories. -/
abbrev RootMap := List ((List Char) × GroupMap)

/-- A decoded structured document: root key to data group to category to
table, as an insertion ordered association list matching a Python dict. -/
abbrev Doc := List ((List Char) × RootMap)

instance : DecidableEq GroupMap := inferInstance

instance : DecidableEq RootMap := inferInstance

instance : DecidableEq Doc := inferInstance

/-- Python dict lookup on an association list. -/
def aget {α : Type} : List ((List Char) × α) → List Char → Option α
  | [], _ => none
  | (k, v) :: rest, key => if k = key then some v else aget rest key

/-- Python dict.setdefault on a key followed by an update of the value
stored there: an existing entry keeps its position, a missing key is
appended at the end, exactly as dict insertion order behaves. -/
def updAt {α : Type} (m : List ((List Char) × α)) (key : List Char) (dflt : α)
    (f : α → α) : List ((List Char) × α) :=
  match m with
  | [] => [(key, f dflt)]
  | (k, v) :: rest => if k = key then (k, f v) :: rest else (k, v) :: updAt rest key dflt f

/-- The fresh document built when no file exists at the target path.  The
source keys it by parser.data_structure; following the canonical rule of
spec section 9 this is modelled as the configured root key name. -/
def freshDoc (rk g c : List Char) (data : Table) : Doc := [(rk, [(g, [(c, data)])])]

/-- The merge step
content.setdefault(rootKey, dict()).setdefault(data_group, dict())[category] = data
written functionally. -/
def mergeDoc (d : Doc) (rk g c : List Char) (data : Table) : Doc :=
  updAt d rk [] (fun l2 => updAt l2 g [] (fun l3 => updAt l3 c data (fun _ => data)))

/-- Lookup of one leaf table at a root key, data group and category. -/
def leafGet (d : Doc) (rk g c : List Char) : Option Table :=
  match aget d rk with
  | none => none
  | some l2 =>
    match aget l2 g with
    | none => none
    | some l3 => aget l3 c

/-- Lookup of one data group mapping under a root key. -/
def aget2 (d : Doc) (rk g : List Char) : Option GroupMap :=
  match aget d rk with
  | none => none
  | some l2 => aget l2 g

/-- Result of reading and decoding an existing target file: either the
nested mapping form, or any content on which parsing or the setdefault
chain raises, which the source re-raises as a document parse error. -/
inductive Body where
  | decodable (d : Doc)
  | undecodable
deriving DecidableEq

/-- State of the target path before the update: no file, or a file whose
raw first line and decoded body are given. -/
inductive FileState where
  | absent
  | stored (first : List Char) (body : Body)
deriving DecidableEq

/-- Outcome of update_output_file: a completed write, a format detection
failure that is printed and swallowed so the function returns normally, or
an error raised before any write. -/
inductive UpdateOutcome where
  | wrote (fmt : Fmt) (d : Doc)
  | swallowedDetect (e : DetectErr)
  | raisedCsv
  | raisedParse
deriving DecidableEq

/-- update_output_file: when no file exists, build a fresh document and
write it as JSON; an existing file is format detected (a detection failure
is printed and swallowed), CSV is rejected with a raised error, JSON and
YAML are decoded, merged at the one leaf, and rewritten whole in the
detected format.  The root key is the configured root key name, per the
canonical rule of spec section 9. -/
def update_output_file (st : FileState) (data : Table) (rk g c : List Char) :
    UpdateOutcome :=
  match st with
  | .absent => .wrote .fjson (freshDoc rk g c data)
  | .stored first body =>
    match detect_file_format first with
    | .error e => .swallowedDetect e
    | .ok .fcsv => .raisedCsv
    | .ok fmt =>
      match body with
      | .undecodable => .raisedParse
      | .decodable d => .wrote fmt (mergeDoc d rk g c data)

/-- True exactly when the outcome performed a write. -/
def isWrote : UpdateOutcome → Bool
  | .wrote _ _ => true
  | _ => false

/-- True for outcomes the function raises to its caller; the swallowed
detection failure and a completed write return normally. -/
def isRaised : UpdateOutcome → Bool
  | .raisedCsv => true
  | .raisedParse => true
  | _ => false

/-- True for the printed and swallowed detection failure. -/
def isSwallowed : UpdateOutcome → Bool
  | .swallowedDetect _ => true
  | _ => false

/-- First line of the serialized document: json.dump of a mapping with
indent 2 opens with a brace; yaml.dump in block style opens with the first
top level key followed by a colon. -/
def encHead : Fmt → Doc → List Char
  | .fjson, _ => ['{']
  | .fyaml, d =>
    match d with
    | [] => ['{', '}']
    | (k, _) :: _ => k ++ [':']
  | .fcsv, _ => []

/-- File state after the call: only a wrote outcome replaces the file; every
other outcome leaves the target exactly as it was. -/
def applyOutcome (st : FileState) : UpdateOutcome → FileState
  | .wrote fmt d => .stored (encHead fmt d) (.decodable d)
  | _ => st

lemma pyStartsWith_ne_nil {p : Char} {ps s : List Char}
    (h : pyStartsWith (p :: ps) s = true) : s ≠ [] := by
  cases s with
  | nil => simp [pyStartsWith] at h
  | cons a as => simp

lemma dash_not_brace {s : List Char}
    (h : pyStartsWith ['-', '-', '-'] s = true) : pyStartsWith ['{'] s = false := by
  cases s with
  | nil => simp [pyStartsWith] at h
  | cons a as =>
    simp [pyStartsWith] at h ⊢
    rcases h with ⟨h1, _⟩
    subst h1
    decide

lemma csvCond_ne_nil {s : List Char}
    (h : (pyContains ',' s || pyStartsWith ['s', 'e', 'p', '='] (pyLower s)) = true) :
    s ≠ [] := by
  cases s with
  | nil => simp [pyContains, pyLower, pyStartsWith] at h
  | cons a as => simp

lemma detect_of_strip_nil {line : List Char} (h : pyStrip line = []) :
    detect_file_format line = .error .emptyOrCorrupt := by
  simp [detect_file_format, h]

lemma detect_of_brace {line : List Char}
    (h : pyStartsWith ['{'] (pyStrip line) = true) :
    detect_file_format line = .ok .fjson := by
  have hne := pyStartsWith_ne_nil h
  simp [detect_file_format, h, hne]

lemma detect_of_dash {line : List Char}
    (h : pyStartsWith ['-', '-', '-'] (pyStrip line) = true) :
    detect_file_format line = .ok .fyaml := by
  have hne := pyStartsWith_ne_nil h
  have hb := dash_not_brace h
  simp [detect_file_format, h, hne, hb]

lemma detect_of_csv {line : List Char}
    (hb : pyStartsWith ['{'] (pyStrip line) = false)
    (hd : pyStartsWith ['-', '-', '-'] (pyStrip line) = false)
    (hc : (pyContains ',' (pyStrip line) ||
           pyStartsWith ['s', 'e', 'p', '='] (pyLower (pyStrip line))) = true) :
    detect_file_format line = .ok .fcsv := by
  have hne := csvCond_ne_nil hc
  simp [detect_file_format, hb, hd, hc, hne]

lemma detect_of_other {line : List Char}
    (hne : pyStrip line ≠ [])
    (hb : pyStartsWith ['{'] (pyStrip line) = false)
    (hd : pyStartsWith ['-', '-', '-'] (pyStrip line) = false)
    (hc1 : pyContains ',' (pyStrip line) = false)
    (hc2 : pyStartsWith ['s', 'e', 'p', '='] (pyLower (pyStrip line)) = false) :
    detect_file_format line = .error .unknownFormat := by
  simp [detect_file_format, hne, hb, hd, hc1, hc2]

/-- C5: format detection examines only the stripped first line and is a
total five way case split, read in the fixed order of the source: an empty
stripped first line fails as empty or corrupt; a line opening with a brace
is JSON; a line opening with three dashes is YAML; otherwise a line with a
comma or a case insensitive sep= opening is CSV; anything else fails as an
unknown format. -/
theorem claim_c5 : ∀ line : List Char,
    (pyStrip line = [] → detect_file_format line = .error .emptyOrCorrupt)
  ∧ (pyStartsWith ['{'] (pyStrip line) = true → detect_file_format line = .ok .fjson)
  ∧ (pyStartsWith ['-', '-', '-'] (pyStrip line) = true →
       detect_file_format line = .ok .fyaml)
  ∧ ((pyContains ',' (pyStrip line) ||
        pyStartsWith ['s', 'e', 'p', '='] (pyLower (pyStrip line))) = true →
       pyStartsWith ['{'] (pyStrip line) = false →
       pyStartsWith ['-', '-', '-'] (pyStrip line) = false →
       detect_file_format line = .ok .fcsv)
  ∧ (pyStrip line ≠ [] →
       pyStartsWith ['{'] (pyStrip line) = false →
       pyStartsWith ['-', '-', '-'] (pyStrip line) = false →
       pyContains ',' (pyStrip line) = false →
       pyStartsWith ['s', 'e', 'p', '='] (pyLower (pyStrip line)) = false →
       detect_file_format line = .error .unknownFormat) := by
  intro line
  exact ⟨detect_of_strip_nil, detect_of_brace, detect_of_dash,
    fun hc hb hd => detect_of_csv hb hd hc,
    fun hne hb hd h1 h2 => detect_of_other hne hb hd h1 h2⟩

/-- C5 witness: each of the five detection outcomes on a concrete line. -/
theorem claim_c5_witness :
    detect_file_format [] = .error .emptyOrCorrupt
  ∧ detect_file_format ['{', 'a'] = .ok .fjson
  ∧ detect_file_format ['-', '-', '-'] = .ok .fyaml
  ∧ detect_file_format ['a', ',', 'b'] = .ok .fcsv
  ∧ detect_file_format ['S', 'E', 'P', '=', ';'] = .ok .fcsv
  ∧ detect_file_format ['?', '?', '?'] = .error .unknownFormat :=
  ⟨(claim_c5 []).1 (by decide),
   (claim_c5 ['{', 'a']).2.1 (by decide),
   (claim_c5 ['-', '-', '-']).2.2.1 (by decide),
   (claim_c5 ['a', ',', 'b']).2.2.2.1 (by decide) (by decide) (by decide),
   (claim_c5 ['S', 'E', 'P', '=', ';']).2.2.2.1 (by decide) (by decide) (by decide),
   (claim_c5 ['?', '?', '?']).2.2.2.2 (by decide) (by decide) (by decide) (by decide)
     (by decide)⟩

/-- C10: detection tests JSON, then YAML, then CSV in that fixed order on
the whitespace stripped first line, so a brace opening wins over a comma in
the same line and a three dash opening likewise wins over a comma. -/
theorem claim_c10 : ∀ line : List Char,
    (pyStartsWith ['{'] (pyStrip line) = true → detect_file_format line = .ok .fjson)
  ∧ (pyStartsWith ['-', '-', '-'] (pyStrip line) = true →
       detect_file_format line = .ok .fyaml) := by
  intro line
  exact ⟨detect_of_brace, detect_of_dash⟩

/-- C10 witness: lines that contain a comma yet open with a brace or with
three dashes are classified JSON and YAML respectively. -/
theorem claim_c10_witness :
    detect_file_format ['{', 'a', ',', 'b', '}'] = .ok .fjson
  ∧ detect_file_format ['-', '-', '-', ' ', 'a', ',', 'b'] = .ok .fyaml
  ∧ pyContains ',' (pyStrip ['{', 'a', ',', 'b', '}']) = true
  ∧ pyContains ',' (pyStrip ['-', '-', '-', ' ', 'a', ',', 'b']) = true :=
  ⟨(claim_c10 ['{', 'a', ',', 'b', '}']).1 (by decide),
   (claim_c10 ['-', '-', '-', ' ', 'a', ',', 'b']).2 (by decide),
   by decide, by decide⟩

lemma pySlice_zero_none {α : Type} (l : List α) : pySlice l 0 none = l := by
  simp [pySlice, pyClip]

lemma pySlice_some {α : Type} (l : List α) (s e : Int) :
    pySlice l s (some e) = (l.take (pyClip e l.length)).drop (pyClip s l.length) := rfl

lemma pySlice_overflow {α : Type} (l : List α) (s : Int) (h : (l.length : Int) ≤ s) :
    pySlice l s none = [] := by
  have h0 : ¬ s < 0 := by omega
  have hc : pyClip s l.length = l.length := by
    simp only [pyClip, h0, if_false]
    omega
  simp [pySlice, hc]

lemma pySlice_neg {α : Type} (l : List α) (k : Nat) (h1 : 0 < k) (h2 : k ≤ l.length) :
    pySlice l (-(k : Int)) none = l.drop (l.length - k) := by
  have hneg : -(k : Int) < 0 := by omega
  have hc : pyClip (-(k : Int)) l.length = l.length - k := by
    simp only [pyClip, hneg, if_true]
    omega
  simp [pySlice, hc]

lemma load_excel_identity (sheet : List (List Value)) (kw : List Char)
    (h : processRows sheet kw ≠ []) :
    load_excel sheet kw 0 none = .ok (extractConcat sheet kw) := by
  simp [load_excel, h, pySlice_zero_none]

/-- C8: the row slice of _load_excel follows Python sequence slicing: with
start 0 and no end bound it is the identity on the concatenated table; an
explicit bound pair acts as a half open clipped window; a start at or past
the end yields the empty table rather than failing; a negative start counts
from the end; and with the default bounds _load_excel returns exactly the
concatenation of the extracted segments. -/
theorem claim_c8 :
    (∀ (l : List (List Value)), pySlice l 0 none = l)
  ∧ (∀ (l : List (List Value)) (s e : Int),
       pySlice l s (some e) = (l.take (pyClip e l.length)).drop (pyClip s l.length))
  ∧ (∀ (l : List (List Value)) (s : Int), (l.length : Int) ≤ s → pySlice l s none = [])
  ∧ (∀ (l : List (List Value)) (k : Nat), 0 < k → k ≤ l.length →
       pySlice l (-(k : Int)) none = l.drop (l.length - k))
  ∧ (∀ (sheet : List (List Value)) (kw : List Char), processRows sheet kw ≠ [] →
       load_excel sheet kw 0 none = .ok (extractConcat sheet kw)) :=
  ⟨fun l => pySlice_zero_none l,
   fun l s e => pySlice_some l s e,
   fun l s h => pySlice_overflow l s h,
   fun l k h1 h2 => pySlice_neg l k h1 h2,
   fun sheet kw h => load_excel_identity sheet kw h⟩

/-- C8 witness: identity slice, clipped overflow, negative start, and the
default bounds of _load_excel on a concrete sheet. -/
theorem claim_c8_witness :
    pySlice [[Value.intV 1], [Value.intV 2], [Value.intV 3]] 0 none
      = [[Value.intV 1], [Value.intV 2], [Value.intV 3]]
  ∧ pySlice [[Value.intV 1], [Value.intV 2], [Value.intV 3]] 5 none = []
  ∧ pySlice [[Value.intV 1], [Value.intV 2], [Value.intV 3]] (-((2 : Nat) : Int)) none
      = [[Value.intV 2], [Value.intV 3]]
  ∧ load_excel [[Value.strV ['H']], [Value.intV 1]] ['H'] 0 none
      = .ok [[Value.nan]] := by
  refine ⟨claim_c8.1 [[Value.intV 1], [Value.intV 2], [Value.intV 3]], ?_, ?_, ?_⟩
  · rw [claim_c8.2.2.1 [[Value.intV 1], [Value.intV 2], [Value.intV 3]] 5 (by decide)]
  · rw [claim_c8.2.2.2.1 [[Value.intV 1], [Value.intV 2], [Value.intV 3]] 2
      (by decide) (by decide)]
    decide
  · rw [claim_c8.2.2.2.2 [[Value.strV ['H']], [Value.intV 1]] ['H'] (by decide)]
    have hx : extractConcat [[Value.strV ['H']], [Value.intV 1]] ['H'] = [[Value.nan]] := by
      decide
    rw [hx]

lemma length_sliceN {α : Type} (l : List α) (a b : Nat) :
    (sliceN l a b).length = min b l.length - a := by
  simp [sliceN]

lemma sumLens_cons {α : Type} (x : List α) (ls : List (List α)) :
    sumLens (x :: ls) = x.length + sumLens ls := by
  simp [sumLens]

lemma segsFrom_length (sheet : List (List Value)) :
    ∀ pr : List Nat, (segsFrom sheet pr).length = pr.length
  | [] => by simp [segsFrom]
  | [_] => by simp [segsFrom]
  | m :: m2 :: rest => by
    have ih := segsFrom_length sheet (m2 :: rest)
    simp only [segsFrom, List.length_cons, ih]

lemma segsFrom_sum (sheet : List (List Value)) :
    ∀ pr : List Nat, pr.Pairwise (· < ·) → (∀ x ∈ pr, x < sheet.length) →
      pr ≠ [] → sumLens (segsFrom sheet pr) + pr.length + pr.headD 0 = sheet.length
  | [] => by
    intro _ _ h
    exact absurd rfl h
  | [m] => by
    intro _ hlt _
    have hm : m < sheet.length := hlt m (by simp)
    simp only [segsFrom, sumLens_cons, length_sliceN, List.headD_cons, List.length_cons,
      List.length_nil]
    simp only [sumLens, List.map_nil, List.sum_nil]
    omega
  | m :: m2 :: rest => by
    intro hpw hlt _
    have hcons := List.pairwise_cons.mp hpw
    have h12 : m < m2 := hcons.1 m2 (by simp)
    have hm2 : m2 < sheet.length := hlt m2 (by simp)
    have ih := segsFrom_sum sheet (m2 :: rest) hcons.2
      (fun x hx => hlt x (List.mem_cons_of_mem m hx)) (by simp)
    simp only [List.headD_cons, List.length_cons] at ih ⊢
    simp only [segsFrom, sumLens_cons, length_sliceN]
    omega

lemma segsFrom_getD (sheet : List (List Value)) :
    ∀ (pr : List Nat) (i : Nat), i < pr.length →
      (segsFrom sheet pr).getD i [] =
        sliceN sheet (pr.getD i 0 + 1) (pr.getD (i + 1) sheet.length)
  | [], i => by simp
  | [m], i => by
    intro hi
    have h0 : i = 0 := by simpa using hi
    subst h0
    simp [segsFrom]
  | m :: m2 :: rest, i => by
    intro hi
    cases i with
    | zero => simp [segsFrom]
    | succ j =>
      have hj : j < (m2 :: rest).length := by simpa using hi
      have ih := segsFrom_getD sheet (m2 :: rest) j hj
      simp only [segsFrom, List.getD_cons_succ, ih]

lemma processRows_pairwise (sheet : List (List Value)) (kw : List Char) :
    (processRows sheet kw).Pairwise (· < ·) :=
  List.Pairwise.sublist (List.filter_sublist _) (List.pairwise_lt_range _)

lemma processRows_lt (sheet : List (List Value)) (kw : List Char) :
    ∀ x ∈ processRows sheet kw, x < sheet.length := by
  intro x hx
  exact List.mem_range.mp (List.mem_of_mem_filter hx)

lemma sumLens_map_tagSeg (ls : List (List (List Value))) :
    sumLens (ls.map tagSeg) = sumLens ls := by
  induction ls with
  | nil => rfl
  | cons a ls ih =>
    simp only [List.map_cons, sumLens_cons, ih, tagSeg, List.length_map]

/-- C1 (amended): with K marker rows found at ascending positions, the
splitter produces exactly K segments in marker order, segment i holding
the rows strictly after marker row i up to but excluding marker row i+1,
or to the end of the sheet for the last marker; their row counts sum to
the sheet length minus K minus the position of the first marker row, since
rows before the first marker belong to no segment.  The tagging step
preserves all counts. -/
theorem claim_c1 : ∀ (sheet : List (List Value)) (kw : List Char) (m : Nat)
    (rest : List Nat), processRows sheet kw = m :: rest →
    ((segsFrom sheet (m :: rest)).length = (m :: rest).length
    ∧ sumLens (segsFrom sheet (m :: rest)) + (m :: rest).length + m = sheet.length
    ∧ sumLens ((segsFrom sheet (m :: rest)).map tagSeg) = sumLens (segsFrom sheet (m :: rest))
    ∧ ∀ i, i < (m :: rest).length →
        (segsFrom sheet (m :: rest)).getD i [] =
          sliceN sheet ((m :: rest).getD i 0 + 1) ((m :: rest).getD (i + 1) sheet.length)) := by
  intro sheet kw m rest h
  have hpw := processRows_pairwise sheet kw
  have hlt := processRows_lt sheet kw
  rw [h] at hpw hlt
  refine ⟨segsFrom_length sheet _, ?_, sumLens_map_tagSeg _,
    fun i hi => segsFrom_getD sheet _ i hi⟩
  have hs := segsFrom_sum sheet (m :: rest) hpw hlt (by simp)
  simpa using hs

/-- C1 counterexample: a sheet with one non marker row before the single
marker row has one segment of one row, while total rows minus K is two; the
segment row counts do not sum to total rows minus K. -/
theorem claim_c1_counterexample :
    processRows [[Value.strV ['x']], [Value.strV ['H']], [Value.strV ['a']]] ['H'] = [1]
  ∧ sumLens (segsFrom [[Value.strV ['x']], [Value.strV ['H']], [Value.strV ['a']]] [1]) = 1
  ∧ ¬ (sumLens (segsFrom [[Value.strV ['x']], [Value.strV ['H']], [Value.strV ['a']]] [1]) =
        [[Value.strV ['x']], [Value.strV ['H']], [Value.strV ['a']]].length - 1) := by
  decide

/-- C1 witness: a sheet whose first row is a marker, with two markers, two
segments, and counts summing to total rows minus two. -/
theorem claim_c1_witness :
    sumLens (segsFrom [[Value.strV ['H']], [Value.strV ['a']], [Value.strV ['H']],
      [Value.strV ['b']], [Value.strV ['c']]] [0, 2]) + 2 + 0 = 5
  ∧ (segsFrom [[Value.strV ['H']], [Value.strV ['a']], [Value.strV ['H']],
      [Value.strV ['b']], [Value.strV ['c']]] [0, 2]).getD 0 [] =
      sliceN [[Value.strV ['H']], [Value.strV ['a']], [Value.strV ['H']],
        [Value.strV ['b']], [Value.strV ['c']]] 1 2 := by
  have h := claim_c1 [[Value.strV ['H']], [Value.strV ['a']], [Value.strV ['H']],
    [Value.strV ['b']], [Value.strV ['c']]] ['H'] 0 [2] (by decide)
  exact ⟨by simpa using h.2.1, h.2.2.2 0 (by decide)⟩

instance {ε α : Type} [DecidableEq ε] [DecidableEq α] : DecidableEq (Except ε α) := fun x y =>
  match x, y with
  | .error a, .error b =>
    if h : a = b then isTrue (by rw [h]) else isFalse (fun hh => h (Except.error.inj hh))
  | .error _, .ok _ => isFalse (fun hh => Except.noConfusion hh)
  | .ok _, .error _ => isFalse (fun hh => Except.noConfusion hh)
  | .ok a, .ok b =>
    if h : a = b then isTrue (by rw [h]) else isFalse (fun hh => h (Except.ok.inj hh))

lemma aget_updAt_self {α : Type} (m : List ((List Char) × α)) (key : List Char)
    (dflt : α) (f : α → α) :
    aget (updAt m key dflt f) key = some (f ((aget m key).getD dflt)) := by
  induction m with
  | nil => simp [updAt, aget]
  | cons kv rest ih =>
    obtain ⟨k, v⟩ := kv
    by_cases hk : k = key
    · subst hk
      simp [updAt, aget]
    · simp [updAt, aget, hk, ih]

lemma aget_updAt_ne {α : Type} (m : List ((List Char) × α)) (key key2 : List Char)
    (dflt : α) (f : α → α) (h : key2 ≠ key) :
    aget (updAt m key dflt f) key2 = aget m key2 := by
  induction m with
  | nil =>
    have h2 : key ≠ key2 := fun hh => h hh.symm
    simp [updAt, aget, h2]
  | cons kv rest ih =>
    obtain ⟨k, v⟩ := kv
    by_cases hk : k = key
    · subst hk
      have h2 : k ≠ key2 := fun hh => h hh.symm
      simp [updAt, aget, h2]
    · by_cases hk2 : k = key2
      · simp [updAt, aget, hk, hk2, h]
      · simp [updAt, aget, hk, hk2, ih]

lemma aget2_getD (d : Doc) (rk g : List Char) :
    (aget2 d rk g).getD [] = (aget ((aget d rk).getD []) g).getD [] := by
  unfold aget2
  cases aget d rk with
  | none => simp [aget]
  | some l2 => simp

lemma leafGet_eq (d : Doc) (rk g c : List Char) :
    leafGet d rk g c = aget ((aget2 d rk g).getD []) c := by
  unfold leafGet aget2
  rcases hd : aget d rk with _ | l2
  · simp [hd, aget]
  · rcases hg : aget l2 g with _ | l3
    · simp [hd, hg, aget]
    · simp [hd, hg]

lemma aget2_merge_ne1 (d : Doc) (data : Table) (rk g c rk2 g2 : List Char)
    (h : rk2 ≠ rk) :
    aget2 (mergeDoc d rk g c data) rk2 g2 = aget2 d rk2 g2 := by
  unfold aget2 mergeDoc
  rw [aget_updAt_ne _ _ _ _ _ h]

lemma aget2_mergeDoc_ne (d : Doc) (data : Table) (rk g c g2 : List Char)
    (h : g2 ≠ g) :
    aget2 (mergeDoc d rk g c data) rk g2 = aget2 d rk g2 := by
  unfold aget2 mergeDoc
  rw [aget_updAt_self]
  simp only [Option.getD_some]
  rw [aget_updAt_ne _ _ _ _ _ h]
  cases hd : aget d rk with
  | none => simp [aget]
  | some l2 => simp

lemma aget2_mergeDoc_self (d : Doc) (data : Table) (rk g c : List Char) :
    aget2 (mergeDoc d rk g c data) rk g =
      some (updAt ((aget2 d rk g).getD []) c data (fun _ => data)) := by
  unfold aget2 mergeDoc
  rw [aget_updAt_self]
  simp only [Option.getD_some]
  rw [aget_updAt_self]
  rcases hd : aget d rk with _ | l2
  · simp [hd, aget]
  · simp [hd]

lemma leafGet_mergeDoc_self (d : Doc) (data : Table) (rk g c : List Char) :
    leafGet (mergeDoc d rk g c data) rk g c = some data := by
  rw [leafGet_eq, aget2_mergeDoc_self]
  simp only [Option.getD_some]
  rw [aget_updAt_self]

lemma leafGet_mergeDoc_frame (d : Doc) (data : Table) (rk g c rk2 g2 c2 : List Char)
    (h : ¬(rk2 = rk ∧ g2 = g ∧ c2 = c)) :
    leafGet (mergeDoc d rk g c data) rk2 g2 c2 = leafGet d rk2 g2 c2 := by
  by_cases h1 : rk2 = rk
  · subst h1
    by_cases h2 : g2 = g
    · subst h2
      have h3 : c2 ≠ c := fun hc => h ⟨rfl, rfl, hc⟩
      rw [leafGet_eq, leafGet_eq, aget2_mergeDoc_self]
      simp only [Option.getD_some]
      rw [aget_updAt_ne _ _ _ _ _ h3]
    · rw [leafGet_eq, leafGet_eq, aget2_mergeDoc_ne d data rk2 g c g2 h2]
  · rw [leafGet_eq, leafGet_eq, aget2_merge_ne1 d data rk g c rk2 g2 h1]

/-- C2: merging into a path where no file exists builds the fresh document
with the one requested leaf under the root key, encodes it as JSON, and
writes it; the fresh document holds exactly that one leaf and no other. -/
theorem claim_c2 : ∀ (data : Table) (rk g c : List Char),
    update_output_file .absent data rk g c = .wrote .fjson (freshDoc rk g c data)
    ∧ (∀ rk2 g2 c2 v, leafGet (freshDoc rk g c data) rk2 g2 c2 = some v ↔
        (rk2 = rk ∧ g2 = g ∧ c2 = c ∧ v = data)) := by
  intro data rk g c
  constructor
  · rfl
  · intro rk2 g2 c2 v
    constructor
    · intro hv
      by_cases h1 : rk = rk2
      · by_cases h2 : g = g2
        · by_cases h3 : c = c2
          · subst h1; subst h2; subst h3
            simp [freshDoc, leafGet, aget] at hv
            exact ⟨rfl, rfl, rfl, hv.symm⟩
          · subst h1; subst h2
            simp [freshDoc, leafGet, aget, h3] at hv
        · subst h1
          simp [freshDoc, leafGet, aget, h2] at hv
      · simp [freshDoc, leafGet, aget, h1] at hv
    · rintro ⟨rfl, rfl, rfl, rfl⟩
      simp [freshDoc, leafGet, aget]

/-- C2 witness: a concrete fresh write together with the lookup of the one
leaf it creates. -/
theorem claim_c2_witness :
    update_output_file .absent ⟨[['a']], [[Value.intV 1]]⟩ ['R'] ['G'] ['C']
      = .wrote .fjson (freshDoc ['R'] ['G'] ['C'] ⟨[['a']], [[Value.intV 1]]⟩)
  ∧ leafGet (freshDoc ['R'] ['G'] ['C'] ⟨[['a']], [[Value.intV 1]]⟩) ['R'] ['G'] ['C']
      = some ⟨[['a']], [[Value.intV 1]]⟩ := by
  have h := claim_c2 ⟨[['a']], [[Value.intV 1]]⟩ ['R'] ['G'] ['C']
  exact ⟨h.1, (h.2 ['R'] ['G'] ['C'] ⟨[['a']], [[Value.intV 1]]⟩).mpr ⟨rfl, rfl, rfl, rfl⟩⟩

/-- C3: merging into an existing file detected as JSON or YAML that decodes
to the nested mapping form creates missing intermediate levels as needed,
overwrites exactly the one target leaf, leaves every other root key, data
group and leaf unchanged, and writes the whole document back in the format
that was detected. -/
theorem claim_c3 : ∀ (first : List Char) (d : Doc) (data : Table)
    (rk g c : List Char) (fmt : Fmt),
    detect_file_format first = .ok fmt → fmt ≠ .fcsv →
    (update_output_file (.stored first (.decodable d)) data rk g c =
        .wrote fmt (mergeDoc d rk g c data)
    ∧ leafGet (mergeDoc d rk g c data) rk g c = some data
    ∧ (∀ rk2, rk2 ≠ rk → aget (mergeDoc d rk g c data) rk2 = aget d rk2)
    ∧ (∀ g2, g2 ≠ g → aget2 (mergeDoc d rk g c data) rk g2 = aget2 d rk g2)
    ∧ (∀ rk2 g2 c2, ¬(rk2 = rk ∧ g2 = g ∧ c2 = c) →
        leafGet (mergeDoc d rk g c data) rk2 g2 c2 = leafGet d rk2 g2 c2)) := by
  intro first d data rk g c fmt hdet hne
  refine ⟨?_, leafGet_mergeDoc_self d data rk g c,
    fun rk2 h => by unfold mergeDoc; exact aget_updAt_ne d rk rk2 [] _ h,
    fun g2 h => aget2_mergeDoc_ne d data rk g c g2 h,
    fun rk2 g2 c2 h => leafGet_mergeDoc_frame d data rk g c rk2 g2 c2 h⟩
  simp only [update_output_file]
  rw [hdet]
  cases fmt with
  | fcsv => exact absurd rfl hne
  | fjson => rfl
  | fyaml => rfl

/-- C3 witness: a concrete JSON file holding one unrelated leaf; the merge
writes in JSON, creates the new group, stores the new leaf, and the
unrelated leaf is unchanged. -/
theorem claim_c3_witness :
    update_output_file
      (.stored ['{'] (.decodable [(['R'], [(['G', '1'], [(['C', '1'], ⟨[], []⟩)])])]))
      ⟨[['a']], []⟩ ['R'] ['G', '2'] ['C']
      = .wrote .fjson (mergeDoc [(['R'], [(['G', '1'], [(['C', '1'], ⟨[], []⟩)])])]
          ['R'] ['G', '2'] ['C'] ⟨[['a']], []⟩)
  ∧ leafGet (mergeDoc [(['R'], [(['G', '1'], [(['C', '1'], ⟨[], []⟩)])])]
        ['R'] ['G', '2'] ['C'] ⟨[['a']], []⟩) ['R'] ['G', '2'] ['C'] = some ⟨[['a']], []⟩
  ∧ leafGet (mergeDoc [(['R'], [(['G', '1'], [(['C', '1'], ⟨[], []⟩)])])]
        ['R'] ['G', '2'] ['C'] ⟨[['a']], []⟩) ['R'] ['G', '1'] ['C', '1']
      = leafGet [(['R'], [(['G', '1'], [(['C', '1'], ⟨[], []⟩)])])] ['R'] ['G', '1'] ['C', '1'] := by
  have h := claim_c3 ['{'] [(['R'], [(['G', '1'], [(['C', '1'], ⟨[], []⟩)])])]
    ⟨[['a']], []⟩ ['R'] ['G', '2'] ['C'] .fjson (by decide) (by decide)
  exact ⟨h.1, h.2.1, h.2.2.2.2 ['R'] ['G', '1'] ['C', '1'] (by decide)⟩

/-- C4: an existing target file detected as CSV makes the merge raise the
unsupported incremental update error before any write, so the file is
unchanged afterward. -/
theorem claim_c4 : ∀ (first : List Char) (body : Body) (data : Table)
    (rk g c : List Char), detect_file_format first = .ok .fcsv →
    (update_output_file (.stored first body) data rk g c = .raisedCsv
    ∧ applyOutcome (.stored first body)
        (update_output_file (.stored first body) data rk g c) = .stored first body) := by
  intro first body data rk g c hdet
  have h1 : update_output_file (.stored first body) data rk g c = .raisedCsv := by
    simp only [update_output_file]
    rw [hdet]
  exact ⟨h1, by rw [h1]; rfl⟩

/-- C4 witness: a concrete comma bearing first line detected as CSV; the
merge raises and the stored file is unchanged. -/
theorem claim_c4_witness :
    update_output_file (.stored ['a', ',', 'b'] .undecodable) ⟨[], []⟩ ['R'] ['G'] ['C']
      = .raisedCsv
  ∧ applyOutcome (.stored ['a', ',', 'b'] .undecodable)
      (update_output_file (.stored ['a', ',', 'b'] .undecodable) ⟨[], []⟩ ['R'] ['G'] ['C'])
      = .stored ['a', ',', 'b'] .undecodable :=
  claim_c4 ['a', ',', 'b'] .undecodable ⟨[], []⟩ ['R'] ['G'] ['C'] (by decide)

/-- C6 (amended): every merge-store failure happens before the write step
and leaves the target file untouched, with no retry; each such failure is
raised to the caller except a format detection failure, which the source
prints and swallows so the merge returns normally while the pipeline
continues. -/
theorem claim_c6 : ∀ (st : FileState) (data : Table) (rk g c : List Char),
    (isWrote (update_output_file st data rk g c) = false →
      applyOutcome st (update_output_file st data rk g c) = st)
  ∧ (isWrote (update_output_file st data rk g c) = false →
      isSwallowed (update_output_file st data rk g c) = false →
      isRaised (update_output_file st data rk g c) = true) := by
  intro st data rk g c
  refine ⟨?_, ?_⟩ <;>
    cases ho : update_output_file st data rk g c <;>
      simp [isWrote, isRaised, isSwallowed, applyOutcome]

/-- C6 counterexample: an existing file whose first line fits no format
makes detection fail inside the merge; the failure is swallowed, not
raised, so it never surfaces to the caller, contradicting the claimed
propagation policy. -/
theorem claim_c6_counterexample :
    update_output_file (.stored ['?', '?', '?'] .undecodable) ⟨[], []⟩ ['R'] ['G'] ['C']
      = .swallowedDetect .unknownFormat
  ∧ isWrote (update_output_file (.stored ['?', '?', '?'] .undecodable)
      ⟨[], []⟩ ['R'] ['G'] ['C']) = false
  ∧ isRaised (update_output_file (.stored ['?', '?', '?'] .undecodable)
      ⟨[], []⟩ ['R'] ['G'] ['C']) = false := by
  decide

/-- C6 witness: on a CSV target the failure is raised and the file is left
exactly as it was. -/
theorem claim_c6_witness :
    applyOutcome (.stored ['x', ',', 'y'] .undecodable)
      (update_output_file (.stored ['x', ',', 'y'] .undecodable) ⟨[], []⟩ ['R'] ['G'] ['C'])
      = .stored ['x', ',', 'y'] .undecodable
  ∧ isRaised (update_output_file (.stored ['x', ',', 'y'] .undecodable)
      ⟨[], []⟩ ['R'] ['G'] ['C']) = true := by
  have h := claim_c6 (.stored ['x', ',', 'y'] .undecodable) ⟨[], []⟩ ['R'] ['G'] ['C']
  exact ⟨h.1 (by decide), h.2 (by decide) (by decide)⟩

lemma memB_eq_true (c : List Char) : ∀ l : List (List Char), memB c l = true ↔ c ∈ l := by
  intro l
  induction l with
  | nil => simp [memB]
  | cons k ks ih =>
    by_cases h : k = c
    · subst h
      simp [memB]
    · simp [memB, h, ih]
      exact fun hh => absurd hh.symm h

lemma subListB_false_of (xs ys : List (List Char)) (c : List Char)
    (hc : c ∈ xs) (hnc : c ∉ ys) : subListB xs ys = false := by
  by_contra h
  have ht : xs.all (fun c => memB c ys) = true := by
    unfold subListB at h
    exact eq_true_of_ne_false h
  have := List.all_eq_true.mp ht c hc
  exact hnc ((memB_eq_true c ys).mp this)

/-- C7: a syntactically valid where clause that references a column absent
from the table makes filtering fail with the expression error before any
row is produced, whatever the select option is; and a select list naming a
column absent from the table fails with the column not found error. -/
theorem claim_c7 :
    (∀ (t : Table) (selStr : Option (List Char)) (p : PExpr) (c : List Char),
      c ∈ predCols p → c ∉ t.cols →
      filter_data t selStr (some p) = .error .expressionError)
  ∧ (∀ (t : Table) (s c : List Char),
      c ∈ pySplit ',' s → c ∉ t.cols → s ≠ [] →
      filter_data t (some s) none = .error .columnNotFound) := by
  constructor
  · intro t selStr p c hc hnc
    have hf := subListB_false_of (predCols p) t.cols c hc hnc
    simp [filter_data, queryTable, hf]
  · intro t s c hc hnc hs
    have hf := subListB_false_of (pySplit ',' s) t.cols c hc hnc
    simp [filter_data, selectTable, hs, hf]

/-- C7 witness: a one column table; a predicate on a missing column fails
with the expression error, and selecting a missing column fails with the
column not found error. -/
theorem claim_c7_witness :
    filter_data ⟨[['a']], [[Value.intV 1]]⟩ none
      (some (.cmp ['b'] .ceq (.lnum 1))) = .error .expressionError
  ∧ filter_data ⟨[['a']], [[Value.intV 1]]⟩ (some ['b']) none = .error .columnNotFound :=
  ⟨claim_c7.1 ⟨[['a']], [[Value.intV 1]]⟩ none (.cmp ['b'] .ceq (.lnum 1)) ['b']
      (by decide) (by decide),
   claim_c7.2 ⟨[['a']], [[Value.intV 1]]⟩ ['b'] ['b'] (by decide) (by decide) (by decide)⟩

/-- C9: when the predicate references only table columns and the select
list names only table columns, filtering applies the where clause to the
full width rows first and the column restriction second, so the result is
exactly the selected columns of the predicate surviving rows; in
particular the predicate may reference columns excluded from the select
list, since no relation between the two column sets is required. -/
theorem claim_c9 : ∀ (t : Table) (p : PExpr) (s : List Char),
    s ≠ [] → subListB (predCols p) t.cols = true →
    subListB (pySplit ',' s) t.cols = true →
    filter_data t (some s) (some p) =
      .ok ⟨pySplit ',' s,
        (t.rows.filter (fun r => evalRow t.cols r p)).map
          (fun r => (pySplit ',' s).map (fun c => colVal t.cols r c))⟩ := by
  intro t p s hs h1 h2
  simp [filter_data, queryTable, selectTable, hs, h1, h2]

/-- C9 witness: the where clause references column a, the select list is
only column b, and filtering succeeds with the predicate applied before
the column restriction. -/
theorem claim_c9_witness :
    filter_data ⟨[['a'], ['b']], [[Value.intV 1, Value.intV 2], [Value.intV 3, Value.intV 4]]⟩
      (some ['b']) (some (.cmp ['a'] .ceq (.lnum 1)))
      = .ok ⟨[['b']], [[Value.intV 2]]⟩ := by
  rw [claim_c9 ⟨[['a'], ['b']], [[Value.intV 1, Value.intV 2], [Value.intV 3, Value.intV 4]]⟩
    (.cmp ['a'] .ceq (.lnum 1)) ['b'] (by decide) (by decide) (by decide)]
  decide
